import Mathlib

/-!
# Verification of the gondor Maltego property-marshalling engine

A shallow embedding, in Lean 4, of the property-marshalling engine of the
`maxlandon/gondor` Go repository (package `maltego`): the namespace resolver
(`getNamespace`, marshal.go), the type-coercion engine (`convert`,
unmarshal.go), the marshal walk (`GetGoProperties` / `marshalStruct` /
`marshalProperties` / `marshalBaseEntities`, marshal.go), the unmarshal walk
(`unmarshalStruct` / `unmarshalProperties`, unmarshal.go) and the entity
property/overlay collections (entity.go, overlay.go).

Go values and types are modelled by the inductives `GoValue` / `GoType`
below; Go maps (`Properties`, `Overlays`) are modelled extensionally as
functions to `Option`; reflection-driven recursion becomes structural
recursion on `GoType`; Go panics and Go `error` returns become `Except`.
Machine integers are parsed into unbounded `Int`/`Nat` with explicit range
checks against `2^w`, mirroring `strconv`.
-/

namespace Gondor

/-! ## Go string primitives

The engine uses `strings.ToLower`, `strings.Join`, `strings.Trim`,
`strings.Split` and `strings.SplitN(.., 2)`.  They are modelled on the
character lists underlying `String`; `ToLower` is modelled at the ASCII
level (`Char.toLower`), which covers every string the engine manipulates. -/

/-- Go `strings.ToLower` (ASCII level): lower-case every character. -/
def goToLower (s : String) : String :=
  ⟨s.data.map Char.toLower⟩

/-- Go `strings.Join(elems, sep)`: concatenate `elems`, placing `sep` between
consecutive elements. -/
def goJoin (elems : List String) (sep : String) : String :=
  match elems with
  | [] => ""
  | x :: xs => xs.foldl (fun acc y => acc ++ sep ++ y) x

/-- Characters of `cutset` as a membership test (`strings.Trim` semantics:
a character is trimmed when it occurs anywhere in `cutset`). -/
def inCutset (cutset : String) (c : Char) : Bool :=
  cutset.data.contains c

/-- Go `strings.Trim(s, cutset)`: remove all leading and trailing characters
belonging to `cutset`. -/
def goTrim (s cutset : String) : String :=
  ⟨((s.data.dropWhile (inCutset cutset)).reverse.dropWhile (inCutset cutset)).reverse⟩

/-- Split a character list at every occurrence of the character `c`. -/
def splitChar (c : Char) (l : List Char) : List (List Char) :=
  l.foldr
    (fun x acc =>
      if x = c then [] :: acc
      else (x :: acc.headD []) :: acc.tailD [])
    [[]]

/-- Go `strings.Split(s, sep)`.  The engine only ever splits on the
single-character separators `","` and `":"`; the model covers those. -/
def goSplit (s sep : String) : List String :=
  match sep.data with
  | [c] => (splitChar c s.data).map (fun l => ⟨l⟩)
  | _ => [s]

/-- Go `strings.SplitN(s, sep, 2)`: split at the first occurrence of `sep`
only (single-character separators, as above). -/
def goSplitN2 (s sep : String) : List String :=
  match sep.data with
  | [c] =>
    let pre := s.data.takeWhile (fun x => ¬ x = c)
    let post := s.data.dropWhile (fun x => ¬ x = c)
    match post with
    | [] => [⟨pre⟩]
    | _ :: rest => [⟨pre⟩, ⟨rest⟩]
  | _ => [s]

/-! ## The namespace resolver (marshal.go `getNamespace`) -/

/-- marshal.go, `getNamespace`: joins the parent namespace and the
lower-cased name with `"."` and trims leading/trailing dots. -/
def getNamespace (nspace name : String) : String :=
  goTrim (goJoin [nspace, goToLower name] ".") "."

/-! ### Spec-side namespace resolver (for the refinement claim C4)

Built from the spec's words only: "Lower-cases `name`, joins with `parent`
using '.', trims leading/trailing '.'", i.e.
`trim(join(parentNamespace, lower(name)), ".")`. -/

/-- Spec wording: lower-case a name (character by character). -/
def specLower (name : String) : String :=
  ⟨name.data.map Char.toLower⟩

/-- Spec wording: join `parent` and `name` with a single dot separator. -/
def specJoinDot (parent name : String) : String :=
  parent ++ "." ++ name

/-- Spec wording: strip the leading dots of a character list. -/
def specDropDots (l : List Char) : List Char :=
  l.dropWhile (fun c => c = '.')

/-- Spec wording: strip leading and trailing dots. -/
def specTrimDots (s : String) : String :=
  ⟨(specDropDots (specDropDots s.data).reverse).reverse⟩

/-- The namespace resolver exactly as the spec words it:
`trim(join(parent, lower(name)), ".")`. -/
def resolveSpec (parent name : String) : String :=
  specTrimDots (specJoinDot parent (specLower name))

/-! ## Matching rules (maltego package, `MatchingRule`) -/

/-- Go `type MatchingRule string`. -/
abbrev MatchingRule := String

/-- The constant `MatchStrict MatchingRule = "strict"`. -/
def MatchStrict : MatchingRule := "strict"

/-- The constant `MatchLoose MatchingRule = "loose"`. -/
def MatchLoose : MatchingRule := "loose"

/-! ## Overlays (overlay.go) -/

/-- Go `type OverlayPosition string`. -/
abbrev OverlayPosition := String

/-- Go `type OverlayType string`. -/
abbrev OverlayType := String

def OverlayNorth : OverlayPosition := "N"
def OverlaySouth : OverlayPosition := "S"
def OverlayWest : OverlayPosition := "W"
def OverlayNorthWest : OverlayPosition := "NW"
def OverlaySouthWest : OverlayPosition := "SW"
def OverlayCenter : OverlayPosition := "C"

def OverlayImage : OverlayType := "image"
def OverlayColour : OverlayType := "colour"
def OverlayText : OverlayType := "text"

/-- overlay.go `Overlay`: a positioned visual annotated item referencing an
entity property by name. -/
structure Overlay where
  PropertyName : String
  Position : OverlayPosition
  Type' : OverlayType  -- Go field `Overlay.Type` (`Type` is a Lean keyword)

/-- overlay.go `Overlays`: `map[OverlayPosition]Overlay`, modelled
extensionally (a Go map holds at most one entry per key and carries no
iteration-order information). -/
def Overlays := OverlayPosition → Option Overlay

/-- overlay.go `isOverlayType`: membership of the overlay-type tag value in
the enumerated list. -/
def isOverlayType (a : String) : Bool :=
  [OverlayText, OverlayImage, OverlayColour].any (fun b => b = a)

/-- overlay.go `isOverlayPosition`: membership of the overlay-position tag
value in the enumerated list. -/
def isOverlayPosition (a : String) : Bool :=
  [OverlayCenter, OverlayNorth, OverlayNorthWest, OverlaySouth,
    OverlaySouthWest, OverlayWest].any (fun b => b = a)

/-- overlay.go `Label`: display information attached to an entity. -/
structure Label where
  Name : String
  Content : String
  Type' : String  -- Go field `Label.Type`

/-! ## Go types and values

The engine inspects native Go records through `reflect`.  The struct tags
consulted by the engine (`display`, `match`, `alias`, `overlay`, `base`)
are carried on each field; `Tag.Lookup` returning `(value, ok)` is modelled
by `Option String`.  The type universe covers every shape the engine's
claims quantify over: strings, booleans, signed/unsigned integers of an
explicit bit width, structs, pointers, slices and maps.  (The `float`,
`time.Duration` and `interface` arms of the coercion engine concern shapes
outside this universe and are exercised by no claim.)

Whether a struct type's method set implements the `maltego.ValidEntity`
interface is a fact about user-declared methods, not about the type's
structure; it is recorded as the `validEntity` flag. -/

/-- The struct tags read by the engine, as `reflect.StructTag.Lookup`
results (`none` = tag absent). `tagMatch` is the `match:".."` tag,
`tagBase` the `base:".."` tag. -/
structure GoTags where
  display : Option String := none
  tagMatch : Option String := none
  tagAlias : Option String := none
  tagOverlay : Option String := none
  tagBase : Option String := none

mutual
/-- A Go type, as seen through `reflect.Type`. -/
inductive GoType where
  | strT : GoType
  | boolT : GoType
  | intT (bits : Nat) : GoType
  | uintT (bits : Nat) : GoType
  | structT (name : String) (validEntity : Bool) (fields : List GoField) : GoType
  | ptrT (elem : GoType) : GoType
  | sliceT (elem : GoType) : GoType
  | mapT (key elem : GoType) : GoType
/-- A struct field: name, tags, type (`reflect.StructField`). -/
inductive GoField where
  | mk (name : String) (tags : GoTags) (ty : GoType) : GoField
end

def GoField.name : GoField → String
  | .mk n _ _ => n

def GoField.tags : GoField → GoTags
  | .mk _ t _ => t

def GoField.ty : GoField → GoType
  | .mk _ _ t => t

/-- A Go value, as seen through `reflect.Value`.  Struct values list their
field values positionally; a nil pointer is `ptrV none`; map contents are
an entry list (with at most one entry per key, maintained by the
map-writing operations). -/
inductive GoValue where
  | strV (s : String) : GoValue
  | boolV (b : Bool) : GoValue
  | intV (v : Int) : GoValue
  | uintV (v : Nat) : GoValue
  | structV (fields : List GoValue) : GoValue
  | ptrV (elem : Option GoValue) : GoValue
  | sliceV (elems : List GoValue) : GoValue
  | mapV (entries : List (GoValue × GoValue)) : GoValue

mutual
/-- Go `reflect.New(t).Elem()`: the zero value of a type. -/
def zeroValue : GoType → GoValue
  | .strT => .strV ""
  | .boolT => .boolV false
  | .intT _ => .intV 0
  | .uintT _ => .uintV 0
  | .structT _ _ fs => .structV (zeroValues fs)
  | .ptrT _ => .ptrV none
  | .sliceT _ => .sliceV []
  | .mapT _ _ => .mapV []
  termination_by structural t => t
def zeroValues : List GoField → List GoValue
  | [] => []
  | .mk _ _ t :: fs => zeroValue t :: zeroValues fs
  termination_by structural fs => fs
end

mutual
/-- Equality of Go values (used for map keys in `SetMapIndex`). -/
def goValueEq : GoValue → GoValue → Bool
  | .strV a, .strV b => a = b
  | .boolV a, .boolV b => a = b
  | .intV a, .intV b => a = b
  | .uintV a, .uintV b => a = b
  | .structV a, .structV b => goValuesEq a b
  | .ptrV none, .ptrV none => true
  | .ptrV (some a), .ptrV (some b) => goValueEq a b
  | .sliceV a, .sliceV b => goValuesEq a b
  | .mapV a, .mapV b => goValuePairsEq a b
  | _, _ => false
  termination_by structural a => a
def goValuesEq : List GoValue → List GoValue → Bool
  | [], [] => true
  | a :: as', b :: bs => goValueEq a b && goValuesEq as' bs
  | _, _ => false
  termination_by structural a => a
def goValuePairsEq : List (GoValue × GoValue) → List (GoValue × GoValue) → Bool
  | [], [] => true
  | (ka, va) :: as', (kb, vb) :: bs =>
    goValueEq ka kb && goValueEq va vb && goValuePairsEq as' bs
  | _, _ => false
  termination_by structural a => a
end

/-- Go `reflect.Type.Name()`: the declared name of a type (composite literal
types such as pointers, slices and maps are unnamed and yield `""`). -/
def typeNameOf : GoType → String
  | .strT => "string"
  | .boolT => "bool"
  | .intT b => "int" ++ toString b
  | .uintT b => "uint" ++ toString b
  | .structT n _ _ => n
  | .ptrT _ => ""
  | .sliceT _ => ""
  | .mapT _ _ => ""

/-- Go `reflect.Type.String()`: the syntactic spelling of a type (the Go
package qualifier of named types is not carried by the model). -/
def typeStringOf : GoType → String
  | .strT => "string"
  | .boolT => "bool"
  | .intT b => "int" ++ toString b
  | .uintT b => "uint" ++ toString b
  | .structT n _ _ => n
  | .ptrT t => "*" ++ typeStringOf t
  | .sliceT t => "[]" ++ typeStringOf t
  | .mapT k v => "map[" ++ typeStringOf k ++ "]" ++ typeStringOf v

/-- Go `reflect.StructField.IsExported()`: the field name starts with an
upper-case letter. -/
def isExportedName (n : String) : Bool :=
  match n.data with
  | [] => false
  | c :: _ => c.isUpper

/-! ## Entity property fields (unmarshal.go `Field`) and the entity state

`Field.Value` is a Go `interface{}`; the engine stores either plain strings
(wire-decoded property values, sentinel markers) or reflected Go values.
`Properties` is `map[string]Field` and `Overlays` is
`map[OverlayPosition]Overlay`; both are modelled extensionally as functions
to `Option`, the exact content of a Go map (which holds at most one entry
per key and carries no insertion-order information). -/

/-- The possible contents of the `interface{}`-typed `Field.Value`. -/
inductive PropValue where
  | ofString (s : String) : PropValue
  | ofGo (v : GoValue) : PropValue
  | nilV : PropValue

mutual
/-- Go `fmt.Sprintf("%v", ..)` of a Go value (pointer values print their
pointee preceded by `&`; Go prints an address for non-composite pointees,
which no claim observes). -/
def goFormat : GoValue → String
  | .strV s => s
  | .boolV b => if b then "true" else "false"
  | .intV v => toString v
  | .uintV v => toString v
  | .structV fs => "\x7b" ++ goJoin (goFormats fs) " " ++ "\x7d"
  | .ptrV none => "<nil>"
  | .ptrV (some v) => "&" ++ goFormat v
  | .sliceV vs => "[" ++ goJoin (goFormats vs) " " ++ "]"
  | .mapV ps => "map[" ++ goJoin (goFormatPairs ps) " " ++ "]"
  termination_by structural v => v
def goFormats : List GoValue → List String
  | [] => []
  | v :: vs => goFormat v :: goFormats vs
  termination_by structural vs => vs
def goFormatPairs : List (GoValue × GoValue) → List String
  | [] => []
  | (k, v) :: ps => (goFormat k ++ ":" ++ goFormat v) :: goFormatPairs ps
  termination_by structural ps => ps
end

/-- Go `fmt.Sprintf("%v", ..)` of a `Field.Value`. -/
def formatPropValue : PropValue → String
  | .ofString s => s
  | .ofGo v => goFormat v
  | .nilV => "<nil>"

/-- unmarshal.go `Field`: one property of a Maltego entity. -/
structure Field where
  Name : String
  Display : String := ""
  MatchingRule : MatchingRule := ""
  Alias : String := ""
  Hidden : Bool := false
  ReadOnly : Bool := false
  SampleValue : PropValue := .nilV
  Value : PropValue := .nilV

/-- unmarshal.go `Properties`: `map[string]Field`, keyed by the qualified
property name. -/
def Properties := String → Option Field

/-- entity.go `Entity`, restricted to the state the marshalling engine
reads and writes: the property map, the overlay map and the display
labels. -/
structure Entity where
  Properties : Properties
  Overlays : Overlays
  Labels : List Label

/-- entity.go `NewEntity`: fresh entity state (empty property and overlay
maps). -/
def newEntityState : Entity :=
  { Properties := fun _ => none, Overlays := fun _ => none, Labels := [] }

/-- entity.go `Entity.AddProperty`: `e.Properties[p.Name] = p`. -/
def Entity.AddProperty (e : Entity) (p : Field) : Entity :=
  { e with Properties := fun n => if n = p.Name then some p else e.Properties n }

/-- entity.go `Entity.AddOverlay`: `e.Overlays[pos] = overlay`. -/
def Entity.AddOverlay (e : Entity) (value : String) (pos : OverlayPosition)
    (oType : OverlayType) : Entity :=
  { e with Overlays := fun p =>
      if p = pos then some { PropertyName := value, Position := pos, Type' := oType }
      else e.Overlays p }

/-- entity.go `Entity.AddLabel`. -/
def Entity.AddLabel (e : Entity) (title content : String) : Entity :=
  let title := if title = "" then "Info" else title
  { e with Labels := e.Labels ++ [{ Name := title, Content := content, Type' := "text/html" }] }

/-- entity.go `Entity.Property`: the string form of the property stored
under `name`, or `""` when there is none.  (The source scans the map for an
entry whose `.Name` equals `name`; since `AddProperty` keys every entry by
its `.Name`, that scan is lookup by key.) -/
def Entity.Property (e : Entity) (name : String) : String :=
  match e.Properties name with
  | some p => formatPropValue p.Value
  | none => ""

/-! ## The type-coercion engine (unmarshal.go `convert`)

`convert` "casts" the string representation of a property into a target
`reflect.Value`.  The mutation of the target is modelled by returning the
updated value; a returned Go `error` becomes `Except.error`.  `strconv`
distinguishes malformed input (`ErrSyntax`, the spec's ParseError) from
out-of-range input (`ErrRange`, the spec's RangeError); both carry the
function name and the offending input, as `strconv.NumError` does. -/

/-- A `strconv.NumError`-style error: parse failure or range failure. -/
inductive GoError where
  | errParse (fn num : String) : GoError
  | errRange (fn num : String) : GoError

/-- The numeric value of a non-empty all-digit string, in base 10
(`strconv`'s digit accumulation, with the unbounded value retained). -/
def parseDigits (l : List Char) : Option Nat :=
  if l ≠ [] ∧ l.all Char.isDigit then
    some (l.foldl (fun acc c => acc * 10 + (c.toNat - '0'.toNat)) 0)
  else none

/-- Go `strconv.ParseBool`. -/
def goParseBool (s : String) : Except GoError Bool :=
  if s = "1" ∨ s = "t" ∨ s = "T" ∨ s = "true" ∨ s = "TRUE" ∨ s = "True" then .ok true
  else if s = "0" ∨ s = "f" ∨ s = "F" ∨ s = "false" ∨ s = "FALSE" ∨ s = "False" then .ok false
  else .error (.errParse "ParseBool" s)

/-- Go `strconv.ParseUint(s, 10, bits)`: no sign is accepted; the digits are
accumulated and checked against `2^bits`.  (Go checks overflow while
accumulating; for base 10 the outcome is the final magnitude check.) -/
def goParseUint (s : String) (bits : Nat) : Except GoError Nat :=
  match parseDigits s.data with
  | none => .error (.errParse "ParseUint" s)
  | some un => if un ≥ 2 ^ bits then .error (.errRange "ParseUint" s) else .ok un

/-- The sign prelude of `strconv.ParseInt`: strip one leading `+` or `-`.
Returns (negative, remaining characters). -/
def signSplit : List Char → Bool × List Char
  | '+' :: r => (false, r)
  | '-' :: r => (true, r)
  | r => (false, r)

/-- Go `strconv.ParseInt(s, 10, bits)`: an optional leading sign followed by
digits; the magnitude is checked against the signed range
`[-2^(bits-1), 2^(bits-1)-1]`. -/
def goParseInt (s : String) (bits : Nat) : Except GoError Int :=
  if s = "" then .error (.errParse "ParseInt" s)
  else
    let (neg, rest) := signSplit s.data
    match parseDigits rest with
    | none => .error (.errParse "ParseInt" s)
    | some un =>
      let cutoff := 2 ^ (bits - 1)
      if ¬neg ∧ un ≥ cutoff then .error (.errRange "ParseInt" s)
      else if neg ∧ un > cutoff then .error (.errRange "ParseInt" s)
      else .ok (if neg then -(un : Int) else (un : Int))

/-- Go `reflect.Value.SetMapIndex`: insert or overwrite the entry at `k`. -/
def setMapIndex (entries : List (GoValue × GoValue)) (k v : GoValue) :
    List (GoValue × GoValue) :=
  match entries with
  | [] => [(k, v)]
  | (k0, v0) :: rest =>
    if goValueEq k0 k then (k0, v) :: rest else (k0, v0) :: setMapIndex rest k v

/-- unmarshal.go `convert` (taken from go-flags): coerce the string `val`
into the target shape `ty`, whose current value is `retval`; the updated
value is returned.  The `time.Duration`, float and interface arms of the
source concern shapes outside the modelled universe (no claim reaches
them); a shape with no arm — in particular a struct — falls through the
switch and returns `nil` with the value untouched. -/
def convert (val : String) (ty : GoType) (retval : GoValue) : Except GoError GoValue :=
  match ty, retval with
  | .strT, _ => .ok (.strV val)
  | .boolT, _ =>
    if val = "" then .ok (.boolV true)
    else
      match goParseBool val with
      | .ok b => .ok (.boolV b)
      | .error e => .error e
  | .intT bits, _ =>
    match goParseInt val bits with
    | .ok parsed => .ok (.intV parsed)
    | .error e => .error e
  | .uintT bits, _ =>
    match goParseUint val bits with
    | .ok parsed => .ok (.uintV parsed)
    | .error e => .error e
  | .sliceT elemtp, .sliceV xs =>
    match convert val elemtp (zeroValue elemtp) with
    | .ok elemval => .ok (.sliceV (xs ++ [elemval]))
    | .error e => .error e
  | .sliceT _, v => .ok v
  | .mapT keytp valuetp, .mapV entries =>
    let parts := goSplitN2 val ":"
    let key := parts.headD ""
    let value := match parts with
      | _ :: v :: _ => v
      | _ => ""
    match convert key keytp (zeroValue keytp) with
    | .error e => .error e
    | .ok keyval =>
      match convert value valuetp (zeroValue valuetp) with
      | .error e => .error e
      | .ok valueval => .ok (.mapV (setMapIndex entries keyval valueval))
  | .mapT _ _, v => .ok v
  | .ptrT elemtp, .ptrV none =>
    match convert val elemtp (zeroValue elemtp) with
    | .ok r => .ok (.ptrV (some r))
    | .error e => .error e
  | .ptrT elemtp, .ptrV (some inner) =>
    match convert val elemtp inner with
    | .ok r => .ok (.ptrV (some r))
    | .error e => .error e
  | .ptrT _, v => .ok v
  | .structT _ _ _, v => .ok v
  termination_by structural ty

/-! ## The marshal walk (marshal.go)

`GetGoProperties` reflects over the native record held by the entity and
populates the entity's property/overlay maps.  The walk's in-place
mutations of the record (initialization of nil pointer fields via
`fieldVal.Set(reflect.New(..))`) are modelled by returning the updated
record value alongside the updated entity state. -/

/-- Whether `reflect.Type.Implements(ValidEntity)` holds.  Implementing the
interface is a fact about user-declared methods, recorded by the
`validEntity` flag on struct types; a pointer type implements it when its
pointee's method set does (the model does not distinguish value and pointer
receivers). -/
def implementsValidEntity : GoType → Bool
  | .structT _ flag _ => flag
  | .ptrT t => implementsValidEntity t
  | _ => false

/-- Modelled from the spec: `setDisplayProperties` (the Base-Entity Merger,
spec §4.5) is called at marshal.go:151 but its definition is not among the
source files.  Per the spec it copies every property of the base entity
into the owner's keyed map (identical keys overwritten at merge time; later
explicit sets on the owner override) and prepends the base's labels ahead
of the owner's own labels; the link/bookmark attributes it also recovers
are not part of the modelled entity state. -/
def setDisplayProperties (e base : Entity) : Entity :=
  { e with
    Properties := fun n =>
      match base.Properties n with
      | some p => some p
      | none => e.Properties n
    Labels := base.Labels ++ e.Labels }

/-- marshal.go `marshalBaseEntity`: when the reflected type implements
`maltego.ValidEntity`, merge `base.AsEntity()` into the owning entity.  The
`AsEntity` implementations of the repository construct a fresh entity via
`NewEntity`, whose property model is empty: `newEntityState`. -/
def marshalBaseEntity (e : Entity) (realTy : GoType) : Entity :=
  if implementsValidEntity realTy then setDisplayProperties e newEntityState else e

/-- The nil-pointer initialization prelude shared by the marshal loops
(marshal.go lines 114-121 and 175-182): a nil pointer field is set in place
to a fresh zero pointee and `realValue` becomes that pointee; any other
field value is taken as `realValue` unchanged (a non-nil pointer is NOT
dereferenced).  Returns `(realType, realValue, newFieldValue)`. -/
def ptrInit (fty : GoType) (v : GoValue) : GoType × GoValue × GoValue :=
  match fty, v with
  | .ptrT t, .ptrV none => (t, zeroValue t, .ptrV (some (zeroValue t)))
  | _, _ => (fty, v, v)

/-- marshal.go `marshalBaseEntities`: first pass over the fields, before
the entity's own fields are processed; initializes nil pointer fields in
place and merges every field tagged `base:".."`. -/
def marshalBaseEntities (e : Entity) : List GoField → List GoValue → Entity × List GoValue
  | [], vs => (e, vs)
  | _, [] => (e, [])
  | .mk fname tags fty :: fs, v :: vs =>
    -- `if !fieldType.IsExported() { continue }`
    if isExportedName fname then
      let pi := ptrInit fty v
      let e1 := if tags.tagBase.isSome then marshalBaseEntity e pi.1 else e
      let r := marshalBaseEntities e1 fs vs
      (r.1, pi.2.2 :: r.2)
    else
      let r := marshalBaseEntities e fs vs
      (r.1, v :: r.2)

/-- marshal.go `addFieldAsOverlay`: validate an `overlay:".."` struct tag
and register the overlay.  The tag is split on commas; a single valid
position defaults the type to text; an invalid type with a valid position
defaults to text; in every other case the function falls through and no
overlay is attached. -/
def addFieldAsOverlay (e : Entity) (f : Field) (tag : String) : Entity :=
  let infos := goSplit tag ","
  if infos.length = 1 ∧ infos.headD "" = "" then e
  else if infos.length = 1 ∧ isOverlayPosition (infos.headD "") then
    e.AddOverlay f.Name (infos.headD "") OverlayText
  else if infos.length = 2 then
    let p := infos.headD ""
    let t := infos.getD 1 ""
    if ¬ isOverlayPosition p ∧ ¬ isOverlayType t then e
    else if isOverlayPosition p ∧ ¬ isOverlayType t then e.AddOverlay f.Name p OverlayText
    else if isOverlayPosition p ∧ isOverlayType t then e.AddOverlay f.Name p t
    else e
  else e

/-- The per-leaf-field step of marshal.go `marshalProperties` (lines
191-223): skip fields without the `display` tag; compute the matching rule
(strict only when a `match` tag is present and non-empty) and the alias
(the `alias` tag, defaulting to the lower-cased field name); add the
property keyed by `getNamespace(namespace, fieldName)`; register the
overlay when an `overlay` tag is present.  `snapshot` is the current
contents of the containing struct (`Value: entityValue` stores the whole
containing struct, not the field's own value). -/
def marshalLeafField (e : Entity) (nspace fname : String) (tags : GoTags)
    (fty : GoType) (snapshot : GoValue) : Entity :=
  match tags.display with
  | none => e
  | some _ =>
    let mrule := match tags.tagMatch with
      | some value => if value ≠ "" then MatchStrict else MatchLoose
      | none => MatchLoose
    let aliasTag := match tags.tagAlias with
      | some a => if a = "" then goToLower fname else a
      | none => goToLower fname
    let f : Field :=
      { Name := getNamespace nspace fname
        Value := .ofGo snapshot
        Display := typeNameOf fty
        MatchingRule := mrule
        Alias := aliasTag }
    let e1 := e.AddProperty f
    match tags.tagOverlay with
    | none => e1
    | some overlayTag => addFieldAsOverlay e1 f overlayTag

/-- The non-recursive part of one iteration of the `marshalProperties`
loop for a field that is not sent into a nested `marshalStruct`: initialize
a nil pointer field in place (`fieldVal.Set(reflect.New(..))`), then apply
the leaf-field step.  Returns the updated entity and the field's (possibly
initialized) value. -/
def marshalLeafStep (e : Entity) (nspace : String) (done vs : List GoValue)
    (fname : String) (tags : GoTags) : GoType → GoValue → Entity × GoValue
  | .ptrT t, .ptrV none =>
    let v1 : GoValue := .ptrV (some (zeroValue t))
    (marshalLeafField e nspace fname tags (.ptrT t) (.structV (done.reverse ++ v1 :: vs)), v1)
  | fty, v =>
    (marshalLeafField e nspace fname tags fty (.structV (done.reverse ++ v :: vs)), v)

mutual
/-- marshal.go `marshalStruct`: process base entities first, add the "root"
separation property named after the struct type, advance the namespace by
the owning field's name, then process the struct's own fields.  A non-struct
value is returned unchanged (Go would panic on `NumField`; the entry point
only sends structs here). -/
def marshalStruct (e : Entity) (nspace : String) (fieldName : Option String) :
    GoType → GoValue → Entity × GoValue
  | .structT tyName flag fs, .structV vs =>
    let r1 := marshalBaseEntities e fs vs
    let e2 := r1.1.AddProperty
      { Name := getNamespace nspace tyName
        Display := "<" ++ typeStringOf (.structT tyName flag fs) ++ " Value>"
        MatchingRule := MatchLoose
        Value := .ofString "Go type" }
    let nspace1 := match fieldName with
      | some n => getNamespace nspace n
      | none => nspace
    let r2 := marshalFields e2 nspace1 [] fs r1.2
    (r2.1, .structV r2.2)
  | _, v => (e, v)
  termination_by structural t _ => t

/-- marshal.go `marshalProperties`: the loop over a struct's fields.
`done` accumulates (reversed) the field values already processed; the
record mutations performed on a field (nil-pointer initialization, nested
marshals) are threaded into the result list. -/
def marshalFields (e : Entity) (nspace : String) (done : List GoValue) :
    List GoField → List GoValue → Entity × List GoValue
  | [], vs => (e, done.reverse ++ vs)
  | _, [] => (e, done.reverse)
  | .mk fname tags fty :: fs, v :: vs =>
    -- `if !fieldType.IsExported() { continue }`
    match isExportedName fname with
    | false => marshalFields e nspace (v :: done) fs vs
    | true =>
      let r := marshalField e nspace done vs (.mk fname tags fty) v
      marshalFields r.1 nspace (r.2 :: done) fs vs
  termination_by structural fs _ => fs

/-- One iteration of the `marshalProperties` loop over an exported field
(marshal.go lines 160-223): a nil pointer to a struct is initialized in
place (`fieldVal.Set(reflect.New(..))`) and the fresh pointee is marshaled
recursively; a struct value is marshaled recursively; everything else takes
the leaf-field step.  Returns the updated entity and the field's (possibly
initialized or recursively marshaled) value. -/
def marshalField (e : Entity) (nspace : String) (done vs : List GoValue) :
    GoField → GoValue → Entity × GoValue
  | .mk fname tags fty, v =>
    match fty, v with
    | .ptrT (.structT n2 f2 fs2), .ptrV none =>
      let r := marshalStruct e nspace (some fname) (.structT n2 f2 fs2)
        (zeroValue (.structT n2 f2 fs2))
      (r.1, .ptrV (some r.2))
    | .structT n2 f2 fs2, .structV ivs =>
      let r := marshalStruct e nspace (some fname) (.structT n2 f2 fs2) (.structV ivs)
      (r.1, r.2)
    | fty1, v1 => marshalLeafStep e nspace done vs fname tags fty1 v1
  termination_by structural fld _ => fld
end

/-- marshal.go `GetGoProperties`: the marshal entry point.  `e.data` is a
pointer to the native record; `dataTy`/`dataV` are the pointee as obtained
by `reflect.ValueOf(e.data).Elem()`.  Structs (and pointers) are sent into
the recursive walk; any other kind is packaged as a single opaque-value
property.  (In that arm the source computes the property name from
`reflect.TypeOf(entityValue)`, which is the type `reflect.Value` itself,
not the type of the data.) -/
def GetGoProperties (e : Entity) (dataTy : GoType) (dataV : GoValue) : Entity × GoValue :=
  match dataTy, dataV with
  | .structT n f fs, v => marshalStruct e "" none (.structT n f fs) v
  | .ptrT t, v => marshalStruct e "" none (.ptrT t) v
  | _, v =>
    (e.AddProperty
      { Name := "Go Type: reflect.Value"
        MatchingRule := MatchLoose
        Value := .ofGo (.ptrV (some v)) }, v)

/-! ## The unmarshal walk (unmarshal.go, entity.go `Entity.Unmarshal`)

`unmarshalProperties` iterates over the target struct's fields with a local
`realval` variable that initially aliases the target struct.  The source
reassigns `realval` inside the loop: for any exported field whose kind is
not `Ptr`, `realval` becomes `reflect.New(reflect.TypeOf(realval.Interface()))`
— a fresh non-nil pointer to a zero copy of the whole struct.  Later
iterations then call `realval.Type().Field(i)` on a pointer type, and a
first exported field of pointer kind reaches `realval.IsNil()` while
`realval` is still the struct; both panic at run time.  Panics are modelled
as `Except.error` with the reflect panic message. -/

/-- unmarshal.go line 92: the property lookup key for a leaf field is the
verbatim dot-join `strings.Join([]string{namespace, field.Name}, ".")` —
unlike `getNamespace`, the field name is not lower-cased and no dots are
trimmed. -/
def unmarshalFqn (nspace fname : String) : String :=
  goJoin [nspace, fname] "."

/-- The state of the loop-local `realval` variable of
`unmarshalProperties`: still the original target struct, or reassigned to a
fresh non-nil pointer (whose pointee is `copy`). -/
inductive RState where
  | orig : RState
  | freshp (copy : GoValue) : RState

mutual
/-- unmarshal.go `unmarshalProperties` on the struct value `v`
(`realval.Type().NumField()` panics when the value is not a struct). -/
def unmarshalProperties (e : Entity) (nspace : String) :
    GoType → GoValue → Except String GoValue
  | .structT n fl fs, .structV vs =>
    match unmarshalFields e nspace (.structT n fl fs) .orig [] fs vs with
    | .ok vs1 => .ok (.structV vs1)
    | .error msg => .error msg
  | _, _ => .error "reflect: NumField of non-struct type"
  termination_by structural t _ => t

/-- The field loop of unmarshal.go `unmarshalProperties` (lines 55-97),
with the loop-local `realval` threaded as `rstate` and the processed field
values accumulated (reversed) in `done`.  Note the three behaviours of the
source faithfully preserved: (1) any iteration after `realval` was
reassigned panics on `realval.Type().Field(i)`; (2) an exported field of
pointer kind panics on `realval.IsNil()`; (3) for a display-tagged leaf
field, `convert` receives the fresh pointer to a zero copy of the whole
struct — never the target field — and its returned error is discarded. -/
def unmarshalFields (e : Entity) (nspace : String) (sty : GoType) (rstate : RState)
    (done : List GoValue) : List GoField → List GoValue → Except String (List GoValue)
  | [], vs => .ok (done.reverse ++ vs)
  | _, [] => .ok done.reverse
  | .mk fname tags fty :: fs, v :: vs =>
    match rstate with
    | .freshp _ => .error "reflect: Field of non-struct type"
    | .orig =>
      -- `if !field.IsExported() { continue }`
      if isExportedName fname then
        match fty with
        | .ptrT _ =>
          -- fieldKind == Ptr: realval is not reassigned, and is still the
          -- struct; `realval.IsNil()` panics on a struct Value
          .error "reflect: call of reflect.Value.IsNil on struct Value"
        | .structT n2 fl2 fs2 =>
          -- realval was just reassigned to reflect.New(..); the recursion
          -- receives the original field value, captured before that.
          -- (`e.unmarshalStruct(namespace, fieldVal, &field)` inlined: it
          -- advances the namespace with getNamespace and recurses.)
          match unmarshalProperties e (getNamespace nspace fname) (.structT n2 fl2 fs2) v with
          | .ok inner =>
            unmarshalFields e nspace sty (.freshp (zeroValue sty)) (inner :: done) fs vs
          | .error msg => .error msg
        | _ =>
          match tags.display with
          | none =>
            unmarshalFields e nspace sty (.freshp (zeroValue sty)) (v :: done) fs vs
          | some _ =>
            let fqn := unmarshalFqn nspace fname
            let prop := e.Property fqn
            -- convert(prop, realval) with the error discarded (line 96)
            let rst1 : RState :=
              match convert prop (.ptrT sty) (.ptrV (some (zeroValue sty))) with
              | .ok (.ptrV (some c)) => .freshp c
              | _ => .freshp (zeroValue sty)
            unmarshalFields e nspace sty rst1 (v :: done) fs vs
      else unmarshalFields e nspace sty .orig (v :: done) fs vs
  termination_by structural fs _ => fs
end

/-- unmarshal.go `unmarshalStruct`: advance the namespace by the owning
field's name (via `getNamespace`, hence lower-cased) and unpack the
properties into the struct's fields. -/
def unmarshalStruct (e : Entity) (nspace : String) (fieldName : Option String)
    (ty : GoType) (v : GoValue) : Except String GoValue :=
  let ns1 := match fieldName with
    | some n => getNamespace nspace n
    | none => nspace
  unmarshalProperties e ns1 ty v

/-- entity.go `Entity.Unmarshal` (lines 233-242): the unmarshal entry
point handed a native target record.  Its body consists only of comments
sketching the intended logic ("Here, apply custom XML unmarshaling logic,
from e to eType"): it returns a nil error and does not touch the target.
The nil/non-nil Go `error` result is modelled as `Option String`. -/
def Entity.Unmarshal (_e : Entity) (target : GoValue) : Option String × GoValue :=
  (none, target)

/-! ## Spec-side characterizations used by the claims -/

/-- Spec-side boolean literal table (`"true"/"false"` and the strconv
case/digit equivalents): the boolean value denoted by a literal, `none`
when the string is not a boolean literal. -/
def boolLiteral (s : String) : Option Bool :=
  if s = "1" ∨ s = "t" ∨ s = "T" ∨ s = "true" ∨ s = "TRUE" ∨ s = "True" then some true
  else if s = "0" ∨ s = "f" ∨ s = "F" ∨ s = "false" ∨ s = "FALSE" ∨ s = "False" then some false
  else none

/-- Spec-side base-10 signed integer literal: an optional sign followed by
at least one decimal digit; the denoted unbounded integer, `none` on
non-numeric input. -/
def intLiteral (s : String) : Option Int :=
  let (neg, rest) := signSplit s.data
  match parseDigits rest with
  | some n => some (if neg then -(n : Int) else (n : Int))
  | none => none

/-- Spec-side base-10 unsigned integer literal: at least one decimal digit,
no sign. -/
def natLiteral (s : String) : Option Nat :=
  parseDigits s.data

/-- A leaf shape for the unmarshal walk: neither a struct (which recurses)
nor a pointer (which panics in the walk). -/
def isLeafKind : GoType → Bool
  | .structT _ _ _ => false
  | .ptrT _ => false
  | _ => true

mutual
/-- No nil pointer occurs in a struct-field position reachable by the
marshal walk: the walk descends through struct fields (initializing any nil
pointer it meets in place) but never descends below a non-nil pointer,
slice or map. -/
def nilPtrFree : GoValue → Bool
  | .structV fs => nilPtrFreeList fs
  | .ptrV none => false
  | _ => true
  termination_by structural v => v
def nilPtrFreeList : List GoValue → Bool
  | [] => true
  | v :: vs => nilPtrFree v && nilPtrFreeList vs
  termination_by structural vs => vs
end

/-- A sequence of `Entity.AddProperty` calls (the only property-writing
operation of the engine). -/
def applyAddProperties (e : Entity) (fs : List Field) : Entity :=
  fs.foldl Entity.AddProperty e

/-- A sequence of `Entity.AddOverlay` calls (the only overlay-writing
operation; `addFieldAsOverlay` also goes through it). -/
def applyAddOverlays (e : Entity)
    (ops : List (String × OverlayPosition × OverlayType)) : Entity :=
  ops.foldl (fun acc op => acc.AddOverlay op.1 op.2.1 op.2.2) e

/-- The last overlay-addition targeting `pos` in a sequence of
`AddOverlay` calls, if any. -/
def lastOverlayAt (ops : List (String × OverlayPosition × OverlayType))
    (pos : OverlayPosition) : Option (String × OverlayPosition × OverlayType) :=
  ops.reverse.find? (fun op => op.2.1 = pos)

/-- The last field of a given name in an `AddProperty` call sequence. -/
def lastFieldNamed (fs : List Field) (name : String) : Option Field :=
  fs.reverse.find? (fun f => f.Name = name)

/-! ## Concrete fixtures used by the claims -/

/-- Tags of the example field `OS string
`display:"Operating System" alias:"alias"`` (the repository's example
`Target` type; its `strict:"yes"` tag is not among the tags the engine
reads). -/
def tagsOS : GoTags := { display := some "Operating System", tagAlias := some "alias" }

/-- Tags of the example field `IP string
`display:"IP Address" alias:"address" overlay:"W,image"``. -/
def tagsIP : GoTags :=
  { display := some "IP Address", tagAlias := some "address", tagOverlay := some "W,image" }

/-- A two-field record type in which every field carries the `display`
tag (the round-trip claim's premise). -/
def TargetTy : GoType := .structT "Target" false [.mk "OS" tagsOS .strT, .mk "IP" tagsIP .strT]

/-- A populated `Target` record. -/
def targetX : GoValue := .structV [.strV "Windows 10", .strV "1.2.3.4"]

/-- A one-field record with an 8-bit signed integer display field. -/
def CountTy : GoType := .structT "C" false [.mk "Count" { display := some "Count" } (.intT 8)]

/-- An entity carrying the non-numeric string "abc" under exactly the key
the unmarshal walk looks up for the `Count` field (`.Count`). -/
def entityCount : Entity :=
  newEntityState.AddProperty { Name := ".Count", Value := .ofString "abc" }

/-- An empty struct type. -/
def InnerTy : GoType := .structT "Inner" false []

/-- A record type with a single exported pointer-to-struct field, no tags. -/
def PtrFieldTy : GoType := .structT "P" false [.mk "Inner" {} (.ptrT InnerTy)]

/-- Two property fields with distinct qualified names. -/
def fieldA : Field := { Name := "a", Value := .ofString "1" }

def fieldB : Field := { Name := "b", Value := .ofString "2" }

/-- A property field named "ip", as created for an overlay-tagged field. -/
def fieldIP : Field := { Name := "ip" }

/-! ## Theorems -/

/-! ### Auxiliary lemmas -/

theorem inCutset_dot (c : Char) : inCutset "." c = decide (c = '.') := by
  simp [inCutset, List.contains]

theorem goTrim_dot_eq_specTrimDots (s : String) : goTrim s "." = specTrimDots s := by
  unfold goTrim specTrimDots specDropDots
  have hp : inCutset "." = fun c => decide (c = '.') := funext inCutset_dot
  rw [hp]

theorem goJoin_pair (a b : String) : goJoin [a, b] "." = a ++ "." ++ b := rfl

/-! ### C4 — the namespace resolver matches the spec formula -/

/-- C4: for every parent namespace string and every name string, the
namespace resolver returns exactly `trim(join(parent, lower(name)), ".")`:
it lower-cases the name, joins it onto the parent with a dot separator and
strips leading and trailing dots. -/
theorem getNamespace_refines_spec (parent name : String) :
    getNamespace parent name = resolveSpec parent name := by
  unfold getNamespace resolveSpec specJoinDot specLower goToLower
  rw [goJoin_pair, goTrim_dot_eq_specTrimDots]

/-! ### C1 — the marshal/unmarshal round trip -/

/-- C1 (evaluation at the failing input): marshaling the record
`Target{OS:"Windows 10", IP:"1.2.3.4"}`, all of whose fields carry the
`display` tag, and then calling the unmarshal entry point
`Entity.Unmarshal` on a zero-valued record of the same type, does NOT
reproduce the scalar fields: the entry point is an empty stub that returns
a nil error and leaves the target at its zero value, which differs from the
marshaled record.  Even the recursive walk `unmarshalStruct` (never invoked
by the stub) would panic on this ordinary two-field struct rather than
populate it. -/
theorem roundtrip_fails_on_target :
    Entity.Unmarshal (GetGoProperties newEntityState TargetTy targetX).1
        (zeroValue TargetTy) =
      (none, zeroValue TargetTy) ∧
    zeroValue TargetTy ≠ targetX ∧
    unmarshalStruct (GetGoProperties newEntityState TargetTy targetX).1 "" none
        TargetTy (zeroValue TargetTy) =
      .error "reflect: Field of non-struct type" := by
  refine ⟨rfl, ?_, rfl⟩
  have hz : zeroValue TargetTy = .structV [.strV "", .strV ""] := rfl
  rw [hz]
  simp [targetX]

/-! ### C2 — coercion errors during unmarshal -/

/-- C2 (evaluation at the failing input): the string "abc" does not coerce
into an 8-bit integer (`convert` fails with a parse error), yet when an
entity carries "abc" under exactly the key the unmarshal walk looks up for
the display-tagged `int8` field `Count`, the walk finishes without any
error and the target is unchanged — the walk hands `convert` a fresh copy
of the whole struct rather than the field and discards `convert`'s result
(unmarshal.go:96) — and the entry point `Entity.Unmarshal` is an empty stub
returning a nil error.  No coercion failure ever aborts the walk or reaches
the caller. -/
theorem coercion_error_is_discarded :
    convert "abc" (.intT 8) (.intV 0) = .error (.errParse "ParseInt" "abc") ∧
    unmarshalStruct entityCount "" none CountTy (.structV [.intV 0]) =
      .ok (.structV [.intV 0]) ∧
    Entity.Unmarshal entityCount (.structV [.intV 0]) = (none, .structV [.intV 0]) :=
  ⟨rfl, rfl, rfl⟩

/-! ### C3 — uniqueness and ordering of the property collection -/

/-- C3 (counterexample): the property collection is a Go map keyed by the
qualified name and carries no insertion-order information — inserting
`fieldA` then `fieldB` yields exactly the same collection as inserting
`fieldB` then `fieldA`, although the two insertion sequences differ.
Iterating a collection is a function of the collection alone, so no
iteration can yield the entries in insertion order for both sequences;
the ordering half of the claim is false. -/
theorem properties_forget_insertion_order :
    (applyAddProperties newEntityState [fieldA, fieldB]).Properties =
      (applyAddProperties newEntityState [fieldB, fieldA]).Properties ∧
    [fieldA, fieldB] ≠ [fieldB, fieldA] := by
  constructor
  · funext n
    by_cases ha : n = "a" <;> by_cases hb : n = "b" <;>
      simp_all [applyAddProperties, Entity.AddProperty, newEntityState, fieldA, fieldB]
  · simp [fieldA, fieldB]

/-- C3 (amended): every qualified property name keys at most one entry —
looking up a name returns exactly the most recently added field carrying
that name (last write wins) — but the collection is an unordered keyed map,
so insertion order is not preserved for iteration. -/
theorem properties_unique_last_write_wins (fs : List Field) (e : Entity) (name : String) :
    (applyAddProperties e fs).Properties name =
      match lastFieldNamed fs name with
      | some f => some f
      | none => e.Properties name := by
  induction fs generalizing e with
  | nil => simp [applyAddProperties, lastFieldNamed]
  | cons f fs ih =>
    simp only [applyAddProperties, List.foldl_cons] at *
    rw [ih]
    rcases hfind : lastFieldNamed fs name with _ | g
    · simp only [lastFieldNamed, List.reverse_cons] at hfind ⊢
      rw [List.find?_append, hfind]
      by_cases h : f.Name = name
      · simp [Entity.AddProperty, h, Option.orElse]
      · have hne : ¬ name = f.Name := fun hh => h hh.symm
        simp [Entity.AddProperty, h, hne, Option.orElse]
    · simp only [lastFieldNamed, List.reverse_cons] at hfind ⊢
      rw [List.find?_append, hfind]
      simp [Option.orElse]

/-! ### C10 — at most one overlay per position; replacement semantics -/

/-- C10: the overlay collection is keyed by position: for every sequence of
overlay additions (`AddOverlay` directly, or overlay-tagged fields during
marshal, which reach the collection through `addFieldAsOverlay` →
`AddOverlay`), the overlay stored at a position is exactly the one of the
last addition targeting that position — adding at an occupied position
replaces the stored overlay — and positions never targeted keep their
previous content.  At most one overlay per position therefore holds after
every operation. -/
theorem overlays_last_write_wins (e : Entity)
    (ops : List (String × OverlayPosition × OverlayType)) (pos : OverlayPosition) :
    (applyAddOverlays e ops).Overlays pos =
      match lastOverlayAt ops pos with
      | some op => some { PropertyName := op.1, Position := op.2.1, Type' := op.2.2 }
      | none => e.Overlays pos := by
  induction ops generalizing e with
  | nil => simp [applyAddOverlays, lastOverlayAt]
  | cons op ops ih =>
    simp only [applyAddOverlays, List.foldl_cons] at *
    rw [ih]
    rcases hfind : lastOverlayAt ops pos with _ | g
    · simp only [lastOverlayAt, List.reverse_cons] at hfind ⊢
      rw [List.find?_append, hfind]
      by_cases h : op.2.1 = pos
      · simp [Entity.AddOverlay, h, Option.orElse]
      · have hne : ¬ pos = op.2.1 := fun hh => h hh.symm
        simp [Entity.AddOverlay, h, hne, Option.orElse]
    · simp only [lastOverlayAt, List.reverse_cons] at hfind ⊢
      rw [List.find?_append, hfind]
      simp [Option.orElse]

/-! ### C5 — the unmarshal lookup key and the missing-property case -/

/-- C5 (counterexample): the unmarshal walk's property lookup key for a
leaf field (unmarshal.go:92, `unmarshalFqn`) is the verbatim dot-join of
namespace and field name; for namespace "t" and field "IP" it is "t.IP",
whereas the namespace resolver yields `resolve("t","IP") = "t.ip"` — the
two differ, so the lookup key does not equal `resolve(namespace,
fieldName)`. -/
theorem unmarshal_key_is_not_resolve :
    unmarshalFqn "t" "IP" = "t.IP" ∧ getNamespace "t" "IP" = "t.ip" ∧
    unmarshalFqn "t" "IP" ≠ getNamespace "t" "IP" := by
  refine ⟨rfl, rfl, ?_⟩
  decide

/-! ### C9 — overlay-tag validation during marshal -/

/-- C9 (counterexample): for the overlay annotation "W,x,y", splitting on
commas gives position "W" (a valid overlay position) and kind "x" (present
but not a valid overlay kind), so the claim demands a text overlay attached
at "W" referencing the property.  The code, however, only ever attaches an
overlay when the split has exactly one or two components: for this
three-component annotation it attaches nothing at all. -/
theorem overlay_three_part_tag_dropped :
    isOverlayPosition "W" = true ∧ isOverlayType "x" = false ∧
    addFieldAsOverlay newEntityState fieldIP "W,x,y" = newEntityState ∧
    (addFieldAsOverlay newEntityState fieldIP "W,x,y").Overlays "W" = none :=
  ⟨rfl, rfl, rfl, rfl⟩

/-- C9 (amended): when a marshaled field carries an overlay annotation,
the annotation is split on commas into position and optional kind, and —
provided the split has at most two components — if the position is one of
the enumerated overlay positions and the kind is absent or not a valid
overlay kind, an overlay with kind text is attached referencing the
just-created property; if the position is not in the enumerated set, no
overlay is attached at all; and when the split has three or more
components, no overlay is attached regardless of the position. -/
theorem overlay_tag_validation (e : Entity) (f : Field) (tag : String) :
    ((goSplit tag ",").length = 1 ∨ (goSplit tag ",").length = 2 →
      isOverlayPosition ((goSplit tag ",").headD "") = true →
      ((goSplit tag ",").length = 1 ∨ isOverlayType ((goSplit tag ",").getD 1 "") = false) →
      addFieldAsOverlay e f tag =
        e.AddOverlay f.Name ((goSplit tag ",").headD "") OverlayText) ∧
    (isOverlayPosition ((goSplit tag ",").headD "") = false →
      addFieldAsOverlay e f tag = e) ∧
    (3 ≤ (goSplit tag ",").length → addFieldAsOverlay e f tag = e) := by
  unfold addFieldAsOverlay
  rcases hl : goSplit tag "," with _ | ⟨a, _ | ⟨b, _ | ⟨c, rest⟩⟩⟩
  · -- []
    refine ⟨fun h1 => ?_, fun _ => ?_, fun h3 => ?_⟩
    · simp at h1
    · simp
    · simp at h3
  · -- [a]
    refine ⟨fun _ h2 _ => ?_, fun h2 => ?_, fun h3 => ?_⟩
    · simp only [List.headD_cons] at h2
      have hne : ¬ a = "" := by
        rintro rfl
        exact absurd h2 (by decide)
      simp [h2, hne]
    · simp only [List.headD_cons] at h2
      simp [h2]
    · simp at h3
  · -- [a, b]
    refine ⟨fun h1 h2 h3 => ?_, fun h2 => ?_, fun h3 => ?_⟩
    · simp only [List.headD_cons] at h2
      rcases h3 with h3 | h3
      · simp at h3
      · simp only [List.getD_cons_succ, List.getD_cons_zero] at h3
        simp [h2, h3]
    · simp only [List.headD_cons] at h2
      simp [h2]
    · simp at h3
  · -- a :: b :: c :: rest
    refine ⟨fun h1 => ?_, fun _ => ?_, fun _ => ?_⟩
    · rcases h1 with h1 | h1 <;> simp at h1
    · simp
    · simp

/-- C9 witness: a valid position with an invalid kind attaches a text
overlay; an invalid position attaches nothing. -/
theorem overlay_tag_validation_witness :
    addFieldAsOverlay newEntityState fieldIP "N,bogus" =
      newEntityState.AddOverlay "ip" "N" OverlayText ∧
    addFieldAsOverlay newEntityState fieldIP "Q" = newEntityState := by
  constructor
  · exact (overlay_tag_validation newEntityState fieldIP "N,bogus").1
      (by decide) (by decide) (by decide)
  · exact (overlay_tag_validation newEntityState fieldIP "Q").2.1 (by decide)

/-- C5 (amended): during unmarshal of a leaf field carrying the `display`
annotation, the property lookup key is the verbatim dot-join
`namespace ++ "." ++ fieldName` (`unmarshalFqn`, with the field name
neither lower-cased nor dot-trimmed — NOT `resolve(namespace, fieldName)`),
and when no property exists under that key the field is left at its
current value and no error is produced: a missing property is a no-op. -/
theorem unmarshal_missing_property_noop (e : Entity) (nspace : String)
    (fieldName : Option String) (sname : String) (sflag : Bool)
    (fname : String) (tags : GoTags) (fty : GoType) (v : GoValue)
    (hexp : isExportedName fname = true)
    (hdisp : tags.display.isSome = true)
    (hleaf : isLeafKind fty = true)
    (hmiss : e.Properties
      (unmarshalFqn
        (match fieldName with
          | some n => getNamespace nspace n
          | none => nspace)
        fname) = none) :
    unmarshalStruct e nspace fieldName
        (.structT sname sflag [.mk fname tags fty]) (.structV [v]) =
      .ok (.structV [v]) := by
  rcases hd : tags.display with _ | d
  · rw [hd] at hdisp; simp at hdisp
  · cases fty <;> simp_all [unmarshalStruct, unmarshalProperties, unmarshalFields,
      Entity.Property, isLeafKind]

/-- C5 witness: a display-tagged string leaf field with no property under
the walk's lookup key keeps its current value, with no error. -/
theorem unmarshal_missing_property_noop_witness :
    unmarshalStruct newEntityState "t" none
        (.structT "S" false [.mk "IP" { display := some "IP Address" } .strT])
        (.structV [.strV "keep"]) = .ok (.structV [.strV "keep"]) :=
  unmarshal_missing_property_noop newEntityState "t" none "S" false "IP"
    { display := some "IP Address" } .strT (.strV "keep") (by decide) rfl rfl rfl

/-! ### C7 — boolean coercion -/

/-- C7: coercing the empty string into a boolean-shaped field sets the
field to `true` (whatever its current value); coercing a non-empty string
parses it as a boolean literal, and fails with a parse error when it is
not one. -/
theorem convert_bool_empty_true (s : String) (bv : Bool) :
    convert "" .boolT (.boolV bv) = .ok (.boolV true) ∧
    (s ≠ "" → convert s .boolT (.boolV bv) =
      match boolLiteral s with
      | some b => .ok (.boolV b)
      | none => .error (.errParse "ParseBool" s)) := by
  refine ⟨rfl, fun hs => ?_⟩
  have hc : convert s .boolT (.boolV bv) =
      match goParseBool s with
      | .ok b => .ok (.boolV b)
      | .error e => .error e := by
    simp [convert, hs]
  rw [hc]
  unfold goParseBool boolLiteral
  split_ifs <;> rfl

/-- C7 witness: `""` coerces to `true`; the literal `"True"` parses; the
non-literal `"maybe"` fails with a parse error. -/
theorem convert_bool_empty_true_witness :
    convert "" .boolT (.boolV false) = .ok (.boolV true) ∧
    convert "True" .boolT (.boolV false) = .ok (.boolV true) ∧
    convert "maybe" .boolT (.boolV false) = .error (.errParse "ParseBool" "maybe") := by
  refine ⟨(convert_bool_empty_true "x" false).1, ?_, ?_⟩
  · exact (convert_bool_empty_true "True" false).2 (by decide)
  · exact (convert_bool_empty_true "maybe" false).2 (by decide)

/-! ### C8 — integer coercion: parse and range errors -/

theorem goParseInt_eq_intLiteral (s : String) (w : Nat) :
    goParseInt s w =
      match intLiteral s with
      | none => .error (.errParse "ParseInt" s)
      | some n =>
        if n < -(2 ^ (w - 1) : Int) ∨ (2 ^ (w - 1) : Int) ≤ n then
          .error (.errRange "ParseInt" s)
        else .ok n := by
  by_cases hs : s = ""
  · subst hs; rfl
  · unfold goParseInt intLiteral
    rw [if_neg hs]
    rcases hsp : signSplit s.data with ⟨neg, rest⟩
    dsimp only
    rcases hpd : parseDigits rest with _ | un
    · rfl
    · have hcast : ((2 ^ (w - 1) : Nat) : Int) = (2 ^ (w - 1) : Int) := by push_cast; ring
      have hc1 : 0 < (2 ^ (w - 1) : Nat) := pow_pos (by norm_num) _
      simp only [← hcast]
      generalize hgc : (2 ^ (w - 1) : Nat) = c
      rw [hgc] at hc1
      cases neg <;> simp <;> split_ifs <;>
        first
        | rfl
        | omega

theorem goParseUint_eq_natLiteral (s : String) (w : Nat) :
    goParseUint s w =
      match natLiteral s with
      | none => .error (.errParse "ParseUint" s)
      | some n =>
        if 2 ^ w ≤ n then .error (.errRange "ParseUint" s) else .ok n := by
  unfold goParseUint natLiteral
  rcases parseDigits s.data with _ | un
  · rfl
  · simp [ge_iff_le]

/-- C8: coercing a string into a signed or unsigned integer field of width
`w` bits parses it in base 10; non-numeric input fails with a parse error;
a numeric value whose magnitude exceeds the `w`-bit range fails with a
range error (and an in-range value is stored exactly); in particular
coercing "99999" into an 8-bit signed integer field fails with a range
error. -/
theorem convert_int_parse_and_range (s : String) (w : Nat) (ci : Int) (cu : Nat) :
    (intLiteral s = none →
      convert s (.intT w) (.intV ci) = .error (.errParse "ParseInt" s)) ∧
    (∀ n : Int, intLiteral s = some n →
      ((n < -(2 ^ (w - 1) : Int) ∨ (2 ^ (w - 1) : Int) ≤ n) →
        convert s (.intT w) (.intV ci) = .error (.errRange "ParseInt" s)) ∧
      (-(2 ^ (w - 1) : Int) ≤ n → n < (2 ^ (w - 1) : Int) →
        convert s (.intT w) (.intV ci) = .ok (.intV n))) ∧
    (natLiteral s = none →
      convert s (.uintT w) (.uintV cu) = .error (.errParse "ParseUint" s)) ∧
    (∀ n : Nat, natLiteral s = some n →
      (2 ^ w ≤ n → convert s (.uintT w) (.uintV cu) = .error (.errRange "ParseUint" s)) ∧
      (n < 2 ^ w → convert s (.uintT w) (.uintV cu) = .ok (.uintV n))) ∧
    convert "99999" (.intT 8) (.intV 0) = .error (.errRange "ParseInt" "99999") := by
  have hci : convert s (.intT w) (.intV ci) =
      match goParseInt s w with
      | .ok parsed => .ok (.intV parsed)
      | .error e => .error e := by
    simp [convert]
  have hcu : convert s (.uintT w) (.uintV cu) =
      match goParseUint s w with
      | .ok parsed => .ok (.uintV parsed)
      | .error e => .error e := by
    simp [convert]
  refine ⟨?_, ?_, ?_, ?_, rfl⟩
  · intro h
    rw [hci, goParseInt_eq_intLiteral, h]
  · intro n hn
    constructor
    · intro hrange
      rw [hci, goParseInt_eq_intLiteral, hn]
      dsimp only
      rw [if_pos hrange]
    · intro hlo hhi
      rw [hci, goParseInt_eq_intLiteral, hn]
      dsimp only
      rw [if_neg (not_or.mpr ⟨not_lt.mpr hlo, not_le.mpr hhi⟩)]
  · intro h
    rw [hcu, goParseUint_eq_natLiteral, h]
  · intro n hn
    constructor
    · intro hrange
      rw [hcu, goParseUint_eq_natLiteral, hn]
      dsimp only
      rw [if_pos hrange]
    · intro hlt
      rw [hcu, goParseUint_eq_natLiteral, hn]
      dsimp only
      rw [if_neg (not_le.mpr hlt)]

/-- C8 witness: a malformed literal gives a parse error; "99999" into int8
and "256" into uint8 give range errors; in-range values are stored. -/
theorem convert_int_parse_and_range_witness :
    convert "12x" (.intT 8) (.intV 0) = .error (.errParse "ParseInt" "12x") ∧
    convert "99999" (.intT 8) (.intV 0) = .error (.errRange "ParseInt" "99999") ∧
    convert "-12" (.intT 8) (.intV 0) = .ok (.intV (-12)) ∧
    convert "256" (.uintT 8) (.uintV 0) = .error (.errRange "ParseUint" "256") ∧
    convert "7" (.uintT 8) (.uintV 0) = .ok (.uintV 7) := by
  refine ⟨?_, ?_, ?_, ?_, ?_⟩
  · exact (convert_int_parse_and_range "12x" 8 0 0).1 (by decide)
  · exact ((convert_int_parse_and_range "99999" 8 0 0).2.1 99999 (by decide)).1
      (by right; decide)
  · exact ((convert_int_parse_and_range "-12" 8 0 0).2.1 (-12) (by decide)).2
      (by decide) (by decide)
  · exact ((convert_int_parse_and_range "256" 8 0 0).2.2.2.1 256 (by decide)).1 (by decide)
  · exact ((convert_int_parse_and_range "7" 8 0 0).2.2.2.1 7 (by decide)).2 (by decide)

/-! ### C6 — the marshal walk and the caller's record -/

/-- C6 (counterexample): marshaling a record with an exported nil
pointer-to-struct field mutates the caller-supplied record in place
(marshal.go `fieldVal.Set(reflect.New(..))`, lines 114-121 and 175-182):
after the call, the field is non-nil. -/
theorem marshal_mutates_nil_pointer_field :
    (GetGoProperties newEntityState PtrFieldTy (.structV [.ptrV none])).2 ≠
      .structV [.ptrV none] := by
  have h : (GetGoProperties newEntityState PtrFieldTy (.structV [.ptrV none])).2 =
      .structV [.ptrV (some (.structV []))] := rfl
  rw [h]
  simp

theorem nilPtrFreeList_cons (v : GoValue) (vs : List GoValue) :
    nilPtrFreeList (v :: vs) = (nilPtrFree v && nilPtrFreeList vs) := by
  simp [nilPtrFreeList]

theorem ptrInit_of_nilPtrFree (fty : GoType) (v : GoValue) (h : nilPtrFree v = true) :
    ptrInit fty v = (fty, v, v) := by
  cases fty <;> cases v <;> first
    | rfl
    | (rename_i o; cases o
       · exact absurd h (by simp [nilPtrFree])
       · rfl)

theorem marshalBaseEntities_preserves (fs : List GoField) :
    ∀ (vs : List GoValue) (e : Entity), nilPtrFreeList vs = true →
      (marshalBaseEntities e fs vs).2 = vs := by
  induction fs with
  | nil => intro vs e _; simp [marshalBaseEntities]
  | cons f fs ih =>
    intro vs e hvs
    rcases vs with _ | ⟨v, vs⟩
    · simp [marshalBaseEntities]
    · obtain ⟨fname, tags, fty⟩ := f
      rw [nilPtrFreeList_cons, Bool.and_eq_true] at hvs
      simp only [marshalBaseEntities]
      rw [ptrInit_of_nilPtrFree fty v hvs.1]
      by_cases hexp : isExportedName fname <;> simp [hexp, ih vs _ hvs.2]

theorem sizeOf_field_ty_le {fs : List GoField} {f : GoField} (hf : f ∈ fs) :
    sizeOf (GoField.ty f) < sizeOf fs := by
  have h1 := List.sizeOf_lt_of_mem hf
  obtain ⟨n1, t1, ty1⟩ := f
  simp only [GoField.ty]
  have h2 : sizeOf ty1 < sizeOf (GoField.mk n1 t1 ty1) := by
    simp only [GoField.mk.sizeOf_spec]
    omega
  omega

theorem marshalLeafStep_snd (e : Entity) (ns : String) (done vs : List GoValue)
    (fname : String) (tags : GoTags) (fty : GoType) (v : GoValue)
    (hv : nilPtrFree v = true) :
    (marshalLeafStep e ns done vs fname tags fty v).2 = v := by
  cases fty <;> cases v <;> try rfl
  all_goals
    rename_i o
    cases o
    · exact absurd hv (by simp [nilPtrFree])
    · rfl

theorem marshalField_snd (N : Nat)
    (ih : ∀ ty', sizeOf ty' ≤ N → ∀ (v : GoValue) (e : Entity) (ns : String)
      (fn : Option String), nilPtrFree v = true → (marshalStruct e ns fn ty' v).2 = v)
    (e : Entity) (ns : String) (done vs : List GoValue) (fname : String)
    (tags : GoTags) (fty : GoType) (v : GoValue)
    (hszf : sizeOf fty ≤ N) (hv : nilPtrFree v = true) :
    (marshalField e ns done vs (.mk fname tags fty) v).2 = v := by
  have leaf : ∀ (fty1 : GoType) (v1 : GoValue), nilPtrFree v1 = true →
      (marshalLeafStep e ns done vs fname tags fty1 v1).2 = v1 :=
    fun fty1 v1 h1 => marshalLeafStep_snd e ns done vs fname tags fty1 v1 h1
  cases v with
  | ptrV o =>
    cases o with
    | none => exact absurd hv (by simp [nilPtrFree])
    | some x =>
    cases fty with
    | strT => exact leaf _ _ hv
    | boolT => exact leaf _ _ hv
    | intT b2 => exact leaf _ _ hv
    | uintT u2 => exact leaf _ _ hv
    | structT n2 f2 fs2 => exact leaf _ _ hv
    | sliceT t2 => exact leaf _ _ hv
    | mapT k2 v2 => exact leaf _ _ hv
    | ptrT t2 => cases t2 <;> exact leaf _ _ hv
  | structV ivs =>
    cases fty with
    | strT => exact leaf _ _ hv
    | boolT => exact leaf _ _ hv
    | intT b2 => exact leaf _ _ hv
    | uintT u2 => exact leaf _ _ hv
    | structT n2 f2 fs2 => exact ih _ hszf _ e ns (some fname) hv
    | sliceT t2 => exact leaf _ _ hv
    | mapT k2 v2 => exact leaf _ _ hv
    | ptrT t2 => cases t2 <;> exact leaf _ _ hv
  | strV s1 =>
    cases fty with
    | strT => exact leaf _ _ hv
    | boolT => exact leaf _ _ hv
    | intT b2 => exact leaf _ _ hv
    | uintT u2 => exact leaf _ _ hv
    | structT n2 f2 fs2 => exact leaf _ _ hv
    | sliceT t2 => exact leaf _ _ hv
    | mapT k2 v2 => exact leaf _ _ hv
    | ptrT t2 => cases t2 <;> exact leaf _ _ hv
  | boolV b1 =>
    cases fty with
    | strT => exact leaf _ _ hv
    | boolT => exact leaf _ _ hv
    | intT b2 => exact leaf _ _ hv
    | uintT u2 => exact leaf _ _ hv
    | structT n2 f2 fs2 => exact leaf _ _ hv
    | sliceT t2 => exact leaf _ _ hv
    | mapT k2 v2 => exact leaf _ _ hv
    | ptrT t2 => cases t2 <;> exact leaf _ _ hv
  | intV i1 =>
    cases fty with
    | strT => exact leaf _ _ hv
    | boolT => exact leaf _ _ hv
    | intT b2 => exact leaf _ _ hv
    | uintT u2 => exact leaf _ _ hv
    | structT n2 f2 fs2 => exact leaf _ _ hv
    | sliceT t2 => exact leaf _ _ hv
    | mapT k2 v2 => exact leaf _ _ hv
    | ptrT t2 => cases t2 <;> exact leaf _ _ hv
  | uintV u1 =>
    cases fty with
    | strT => exact leaf _ _ hv
    | boolT => exact leaf _ _ hv
    | intT b2 => exact leaf _ _ hv
    | uintT u2 => exact leaf _ _ hv
    | structT n2 f2 fs2 => exact leaf _ _ hv
    | sliceT t2 => exact leaf _ _ hv
    | mapT k2 v2 => exact leaf _ _ hv
    | ptrT t2 => cases t2 <;> exact leaf _ _ hv
  | sliceV l1 =>
    cases fty with
    | strT => exact leaf _ _ hv
    | boolT => exact leaf _ _ hv
    | intT b2 => exact leaf _ _ hv
    | uintT u2 => exact leaf _ _ hv
    | structT n2 f2 fs2 => exact leaf _ _ hv
    | sliceT t2 => exact leaf _ _ hv
    | mapT k2 v2 => exact leaf _ _ hv
    | ptrT t2 => cases t2 <;> exact leaf _ _ hv
  | mapV m1 =>
    cases fty with
    | strT => exact leaf _ _ hv
    | boolT => exact leaf _ _ hv
    | intT b2 => exact leaf _ _ hv
    | uintT u2 => exact leaf _ _ hv
    | structT n2 f2 fs2 => exact leaf _ _ hv
    | sliceT t2 => exact leaf _ _ hv
    | mapT k2 v2 => exact leaf _ _ hv
    | ptrT t2 => cases t2 <;> exact leaf _ _ hv

theorem marshalFields_preserved (N : Nat)
    (ih : ∀ ty', sizeOf ty' ≤ N → ∀ (v : GoValue) (e : Entity) (ns : String)
      (fn : Option String), nilPtrFree v = true → (marshalStruct e ns fn ty' v).2 = v)
    (fs : List GoField) :
    ∀ (vs done : List GoValue) (e : Entity) (ns : String),
      (∀ f ∈ fs, sizeOf (GoField.ty f) ≤ N) → nilPtrFreeList vs = true →
      (marshalFields e ns done fs vs).2 = done.reverse ++ vs := by
  induction fs with
  | nil => intro vs done e ns _ _; simp [marshalFields]
  | cons f fs ihf =>
    intro vs done e ns hsz hvs
    rcases vs with _ | ⟨v, vs⟩
    · simp [marshalFields]
    · obtain ⟨fname, tags, fty⟩ := f
      rw [nilPtrFreeList_cons, Bool.and_eq_true] at hvs
      have hszf : sizeOf fty ≤ N := by
        have := hsz (GoField.mk fname tags fty) (List.mem_cons_self _ _)
        simpa [GoField.ty] using this
      have hsz' : ∀ g ∈ fs, sizeOf (GoField.ty g) ≤ N :=
        fun g hg => hsz g (List.mem_cons_of_mem _ hg)
      cases hexp : isExportedName fname with
      | false =>
        simp only [marshalFields, hexp]
        rw [ihf vs _ e ns hsz' hvs.2]
        simp
      | true =>
        simp only [marshalFields, hexp]
        rw [marshalField_snd N ih e ns done vs fname tags fty v hszf hvs.1,
          ihf vs _ _ ns hsz' hvs.2]
        simp

theorem marshalStruct_preserves_record (N : Nat) :
    ∀ (ty : GoType), sizeOf ty ≤ N →
      ∀ (v : GoValue) (e : Entity) (ns : String) (fn : Option String),
        nilPtrFree v = true → (marshalStruct e ns fn ty v).2 = v := by
  induction N with
  | zero =>
    intro ty hty
    exfalso
    have : 0 < sizeOf ty := by cases ty <;> simp_arith
    omega
  | succ N ihN =>
    intro ty hty v e ns fn hv
    cases ty with
    | structT nm fl fs =>
      cases v with
      | structV vs =>
        have hvs : nilPtrFreeList vs = true := by simpa [nilPtrFree] using hv
        have hsz : ∀ f ∈ fs, sizeOf (GoField.ty f) ≤ N := by
          intro f hf
          have h1 := sizeOf_field_ty_le hf
          have h2 : sizeOf fs < sizeOf (GoType.structT nm fl fs) := by
            simp only [GoType.structT.sizeOf_spec]
            omega
          omega
        simp only [marshalStruct]
        rw [marshalBaseEntities_preserves fs vs e hvs]
        rw [marshalFields_preserved N ihN fs vs [] _ _ hsz hvs]
        simp
      | strV s1 => rfl
      | boolV b1 => rfl
      | intV i1 => rfl
      | uintV u1 => rfl
      | ptrV o1 => rfl
      | sliceV l1 => rfl
      | mapV m1 => rfl
    | strT => rfl
    | boolT => rfl
    | intT b => rfl
    | uintT b => rfl
    | ptrT t => rfl
    | sliceT t => rfl
    | mapT k vt => rfl

/-- C6 (amended): a marshal call's side effects are the entity's
accumulating property model, overlays and display state — plus the in-place
initialization of nil exported pointer fields of the caller's record
(`fieldVal.Set(reflect.New(..))`).  When the record contains no nil pointer
in any position the walk reaches (no nil pointer field of a struct,
recursively), the caller-supplied native record itself is unchanged after
the marshal call. -/
theorem marshal_leaves_nilPtrFree_record_unchanged (e : Entity) (ty : GoType)
    (v : GoValue) (h : nilPtrFree v = true) : (GetGoProperties e ty v).2 = v := by
  cases ty with
  | structT nm fl fs =>
    exact marshalStruct_preserves_record (sizeOf (GoType.structT nm fl fs)) _ le_rfl v e "" none h
  | ptrT t =>
    cases v <;> rfl
  | strT => rfl
  | boolT => rfl
  | intT b => rfl
  | uintT b => rfl
  | sliceT t => rfl
  | mapT k vt => rfl

/-- C6 witness: marshaling the `Target` record (which has no pointer
fields) leaves the record unchanged. -/
theorem marshal_leaves_record_unchanged_witness :
    (GetGoProperties newEntityState TargetTy targetX).2 = targetX :=
  marshal_leaves_nilPtrFree_record_unchanged newEntityState TargetTy targetX (by decide)

end Gondor

